import Mathlib

/-!
# Waybar output lifecycle: `src/client.cpp`

A shallow embedding of `waybar::Client` (the registry of outputs, the list of
bars and the configuration matcher) together with theorems about it.

Pointers are natural numbers handed out by an allocation counter that never
hands out a number twice, `nullptr` is `none`, and every call that leaves the
program (Wayland requests, window operations, the standard streams) is appended
to a trace.  Reading through a pointer to an object that is not live is
undefined behaviour and makes the handler return `none`.
-/

namespace Json

/-- JsonCpp `Json::Value`, by `ValueType`.  A `realValue` carries the bit
pattern of its double; the payload of numbers is never inspected by the client. -/
inductive Value where
  | nullValue
  | intValue (i : Int)
  | uintValue (n : Nat)
  | realValue (bits : Nat)
  | stringValue (s : String)
  | booleanValue (b : Bool)
  | arrayValue (elements : List Value)
  | objectValue (members : List (String × Value))

namespace Value

def isArray : Value → Bool
  | arrayValue _ => true
  | _ => false

def isString : Value → Bool
  | stringValue _ => true
  | _ => false

def isObject : Value → Bool
  | objectValue _ => true
  | _ => false

/-- `Value::asString` on a `stringValue`.  Both calls in the client are guarded
by `isString()`, so the conversions of the other types are never reached. -/
def asString : Value → String
  | stringValue s => s
  | _ => ""

/-- The values visited by `for (auto const &x : value)`: the elements of an
array in index order.  Both loops in the client run under `isArray()`. -/
def elements : Value → List Value
  | arrayValue xs => xs
  | _ => []

end Value

end Json

namespace waybar

open Json

/-- The exceptions that can reach `catch (const std::exception &e)` in
`handleName`: the `std::runtime_error` of `getOutput` and JsonCpp's
`Json::LogicError`.  The payload is `what()`. -/
inductive Exception where
  | runtime_error (what : String)
  | LogicError (what : String)

def Exception.what : Exception → String
  | runtime_error w => w
  | LogicError w => w

/-- `const Value &Value::operator[](const char *key) const`: the member stored
under `key`, the null value when the key is missing or the receiver is null,
and a `Json::LogicError` for every other type of receiver. -/
def Value.index (v : Value) (key : String) : Except Exception Value :=
  match v with
  | Value.nullValue => .ok Value.nullValue
  | Value.objectValue members => .ok ((members.lookup key).getD Value.nullValue)
  | _ => .error (Exception.LogicError "in Json::Value::find(begin, end): requires objectValue or nullValue")

/-- `struct waybar_output`, fields in the order of the aggregate initialiser
in `handleGlobal`: the `wl_output` proxy, the resolved name, the registry
name (a `uint32_t`, only ever compared) and the `zxdg_output_v1` proxy. -/
structure waybar_output where
  output : Nat
  name : String
  wl_name : Nat
  xdg_output : Option Nat

/-- Modelled from the spec: `class Bar` is declared outside `client.cpp`.  A bar
is bound to one output, through the `waybar_output *` it was constructed with,
and built from one configuration entry.  Its constructor, which builds the
window, is taken to return. -/
structure Bar where
  output : Nat
  config : Value

/-- Calls that leave `client.cpp`, in the order they are made. -/
inductive Effect where
  | wl_registry_bind (name : Nat) (interface : String) (version : Nat) (proxy : Nat)
  | zxdg_output_manager_v1_get_xdg_output (manager : Option Nat) (wl_output : Nat) (proxy : Nat)
  | zxdg_output_v1_add_listener (xdg_output : Option Nat) (data : Nat)
  | make_unique_Bar (output : Nat) (config : Value)
  | add_provider_for_screen (bar : Bar)
  | window_close (bar : Bar)
  | cout (line : String)
  | cerr (line : String)
  | zxdg_output_v1_destroy (xdg_output : Option Nat)
  | wl_output_destroy (wl_output : Nat)

/-- `struct wl_interface` of libwayland; the client reads its `name` only. -/
structure wl_interface where
  name : String

/-- `zwlr_layer_shell_v1_interface`, from the generated wlr-layer-shell
protocol header. -/
def zwlr_layer_shell_v1_interface : wl_interface := { name := "zwlr_layer_shell_v1" }

/-- `wl_output_interface`, from the Wayland client protocol header: the type
tag of output globals. -/
def wl_output_interface : wl_interface := { name := "wl_output" }

/-- `zxdg_output_manager_v1_interface`, from the generated xdg-output protocol
header. -/
def zxdg_output_manager_v1_interface : wl_interface := { name := "zxdg_output_manager_v1" }

/-- `zwp_idle_inhibit_manager_v1_interface`, from the generated idle-inhibit
protocol header. -/
def zwp_idle_inhibit_manager_v1_interface : wl_interface := { name := "zwp_idle_inhibit_manager_v1" }

/-- `ZXDG_OUTPUT_V1_NAME_SINCE_VERSION` of the xdg-output protocol header. -/
def ZXDG_OUTPUT_V1_NAME_SINCE_VERSION : Nat := 2

/-- The members of `waybar::Client` that the Wayland handlers touch.  Each
element of `outputs_` is a `std::unique_ptr<waybar_output>`: the address of the
heap object and the object itself.  `next_ptr` is the allocation counter and
`trace` the calls made so far. -/
structure Client where
  layer_shell : Option Nat
  xdg_output_manager : Option Nat
  idle_inhibit_manager : Option Nat
  outputs_ : List (Nat × waybar_output)
  bars : List Bar
  config_ : Value
  next_ptr : Nat
  trace : List Effect

namespace Client

/-- The inner loop of `isValidOutput`: `in_array` becomes true, and the loop is
left, at the first element that is a string equal to the output name. -/
def isValidOutput_in_array (name : String) : List Value → Bool
  | [] => false
  | output_conf :: rest =>
    if output_conf.isString && output_conf.asString == name then true
    else isValidOutput_in_array name rest

/-- `waybar::Client::isValidOutput`. -/
def isValidOutput (config : Value) (output : waybar_output) : Except Exception Bool :=
  match Value.index config "output" with
  | .error e => .error e
  | .ok selector =>
    let found := true
    let found := if selector.isArray then isValidOutput_in_array output.name selector.elements else found
    let found := if selector.isString && selector.asString != output.name then false else found
    .ok found

/-- The loop of `getOutputConfigs` over the elements of an array `config_`;
`configs` is the vector being filled. -/
def getOutputConfigs_loop (output : waybar_output) : List Value → List Value → Except Exception (List Value)
  | [], configs => .ok configs
  | config :: rest, configs =>
    if config.isObject then
      match isValidOutput config output with
      | .error e => .error e
      | .ok true => getOutputConfigs_loop output rest (configs ++ [config])
      | .ok false => getOutputConfigs_loop output rest configs
    else getOutputConfigs_loop output rest configs

/-- `waybar::Client::getOutputConfigs`. -/
def getOutputConfigs (client : Client) (output : waybar_output) : Except Exception (List Value) :=
  if client.config_.isArray then
    getOutputConfigs_loop output client.config_.elements []
  else
    match isValidOutput client.config_ output with
    | .error e => .error e
    | .ok true => .ok [client.config_]
    | .ok false => .ok []

/-- The entry is accepted for the output: `isValidOutput` returns `true`. -/
def isValidOutput_holds (config : Value) (output : waybar_output) : Bool :=
  match isValidOutput config output with
  | .ok true => true
  | _ => false

/-- `std::find_if`: the position of the first element satisfying `p`, with
the element found there; `none` stands for the end iterator. -/
def find_if {α : Type} (p : α → Bool) : List α → Option (Nat × α)
  | [] => none
  | x :: xs =>
    if p x then some (0, x)
    else match find_if p xs with
      | none => none
      | some (i, y) => some (i + 1, y)

/-- `waybar::Client::getOutput`.  The reference returned is the position in
`outputs_` together with the `unique_ptr` stored there. -/
def getOutput (client : Client) (wl_name : Nat) : Except Exception (Nat × (Nat × waybar_output)) :=
  match find_if (fun output => output.2.wl_name == wl_name) client.outputs_ with
  | none => .error (Exception.runtime_error "Unable to find valid output")
  | some it => .ok it

/-- Reading through a `waybar_output *`: the heap object of `outputs_` that
lives at the address, `none` when no live object does. -/
def deref (outputs_ : List (Nat × waybar_output)) (p : Nat) : Option waybar_output :=
  outputs_.lookup p

/-- The bar is bound to the output with registry name `name`: its `output`
pointer leads to a live output whose `wl_name` is `name`. -/
def bound_to (outputs_ : List (Nat × waybar_output)) (name : Nat) (bar : Bar) : Bool :=
  match deref outputs_ bar.output with
  | some output => output.wl_name == name
  | none => false

/-- The registry names of the outputs in `outputs_`, in order. -/
def wl_names (outputs_ : List (Nat × waybar_output)) : List Nat :=
  outputs_.map (fun output => output.2.wl_name)

/-- The entries `getOutputConfigs` returns, none when it throws. -/
def getOutputConfigs_result (client : Client) (output : waybar_output) : List Value :=
  match getOutputConfigs client output with
  | .ok configs => configs
  | .error _ => []

/-- Counts the `Bar` constructions, each of which builds a window, in a trace. -/
def windows_created (trace : List Effect) : Nat :=
  trace.countP (fun call => match call with
    | Effect.make_unique_Bar _ _ => true
    | _ => false)

/-- Every bar points to a live output: no `output` pointer of a bar dangles. -/
def bars_live (client : Client) : Bool :=
  client.bars.all (fun bar => (deref client.outputs_ bar.output).isSome)

/-- The addresses of the heap objects owned by `outputs_`, in order. -/
def addresses (outputs_ : List (Nat × waybar_output)) : List Nat :=
  outputs_.map (fun output => output.1)

/-- The outputs live at pairwise distinct addresses, all of them handed out
by the allocation counter already. -/
def heap_fresh (client : Client) : Bool :=
  decide (addresses client.outputs_).Nodup &&
    (addresses client.outputs_).all (fun a => decide (a < client.next_ptr))

/-- `wl_registry_bind`: a new proxy, recorded in the trace. -/
def wl_registry_bind (client : Client) (name : Nat) (interface : String) (version : Nat) : Nat × Client :=
  (client.next_ptr,
   { client with
     next_ptr := client.next_ptr + 1
     trace := client.trace ++ [Effect.wl_registry_bind name interface version client.next_ptr] })

/-- `waybar::Client::handleOutput` on the output at position `i` of `outputs_`.
`handleGlobal` passes `outputs_.back()`, so the position is always valid and
the first case is never taken. -/
def handleOutput (client : Client) (i : Nat) : Client :=
  match client.outputs_[i]? with
  | none => client
  | some (addr, output) =>
    let xdg_output := client.next_ptr
    let output := { output with xdg_output := some xdg_output }
    { client with
      outputs_ := client.outputs_.set i (addr, output)
      next_ptr := client.next_ptr + 1
      trace := client.trace ++
        [Effect.zxdg_output_manager_v1_get_xdg_output client.xdg_output_manager output.output xdg_output,
         Effect.zxdg_output_v1_add_listener output.xdg_output addr] }

/-- `waybar::Client::handleGlobal`.  `name`, `interface` and `version` are the
arguments of the `wl_registry.global` event. -/
def handleGlobal (client : Client) (name : Nat) (interface : String) (version : Nat) : Client :=
  if interface == zwlr_layer_shell_v1_interface.name then
    let (proxy, client) := wl_registry_bind client name zwlr_layer_shell_v1_interface.name version
    { client with layer_shell := some proxy }
  else if interface == wl_output_interface.name then
    let (wl_output, client) := wl_registry_bind client name wl_output_interface.name version
    let addr := client.next_ptr
    let client := { client with
      next_ptr := client.next_ptr + 1
      outputs_ := client.outputs_ ++ [(addr, { output := wl_output, name := "", wl_name := name, xdg_output := none })] }
    handleOutput client (client.outputs_.length - 1)
  else if interface == zxdg_output_manager_v1_interface.name && decide (version ≥ ZXDG_OUTPUT_V1_NAME_SINCE_VERSION) then
    let (proxy, client) :=
      wl_registry_bind client name zxdg_output_manager_v1_interface.name ZXDG_OUTPUT_V1_NAME_SINCE_VERSION
    { client with xdg_output_manager := some proxy }
  else if interface == zwp_idle_inhibit_manager_v1_interface.name then
    let (proxy, client) := wl_registry_bind client name zwp_idle_inhibit_manager_v1_interface.name 1
    { client with idle_inhibit_manager := some proxy }
  else client

/-- The first loop of `handleGlobalRemove` over `bars`: the bars that stay and
the calls made for the bars that go.  Reading `wl_name` through the
`output` pointer of a bar is undefined when the pointer dangles: `none`. -/
def handleGlobalRemove_bars (outputs_ : List (Nat × waybar_output)) (name : Nat) : List Bar → Option (List Bar × List Effect)
  | [] => some ([], [])
  | bar :: rest =>
    match deref outputs_ bar.output with
    | none => none
    | some output =>
      match handleGlobalRemove_bars outputs_ name rest with
      | none => none
      | some (kept, calls) =>
        if output.wl_name == name then
          some (kept, [Effect.window_close bar, Effect.cout ("Bar removed from output: " ++ output.name)] ++ calls)
        else some (bar :: kept, calls)

/-- `waybar::Client::handleGlobalRemove`; `none` is undefined behaviour. -/
def handleGlobalRemove (client : Client) (name : Nat) : Option Client :=
  match handleGlobalRemove_bars client.outputs_ name client.bars with
  | none => none
  | some (kept, calls) =>
    let client := { client with bars := kept, trace := client.trace ++ calls }
    match find_if (fun output => output.2.wl_name == name) client.outputs_ with
    | none => some client
    | some (i, (_, output)) =>
      some { client with
        outputs_ := client.outputs_.eraseIdx i
        trace := client.trace ++
          [Effect.zxdg_output_v1_destroy output.xdg_output, Effect.wl_output_destroy output.output] }

/-- The loop of `handleName` that constructs one bar per matching entry. -/
def handleName_bars (addr : Nat) : Client → List Value → Client
  | client, [] => client
  | client, config :: rest =>
    let bar : Bar := { output := addr, config := config }
    handleName_bars addr
      { client with
        bars := client.bars ++ [bar]
        trace := client.trace ++ [Effect.make_unique_Bar addr config, Effect.add_provider_for_screen bar] }
      rest

/-- Lines 147 to 165 of `waybar::Client::handleName`: the handler from the
point where `wl_name`, the number read through `data`, is known. -/
def handleName_body (client : Client) (wl_name : Nat) (name : String) : Client :=
  match getOutput client wl_name with
  | .error e => { client with trace := client.trace ++ [Effect.cerr e.what] }
  | .ok (i, (addr, output)) =>
    let output := { output with name := name }
    let client := { client with outputs_ := client.outputs_.set i (addr, output) }
    match getOutputConfigs client output with
    | .error e => { client with trace := client.trace ++ [Effect.cerr e.what] }
    | .ok configs =>
      if configs.isEmpty then
        { client with
          trace := client.trace ++
            [Effect.wl_output_destroy output.output, Effect.zxdg_output_v1_destroy output.xdg_output] }
      else handleName_bars addr client configs

/-- `waybar::Client::handleName`.  `data` is the pointer that `handleOutput`
registered with the listener, `&output->wl_name`, given by the address of that
output; `name` is the string sent by the compositor.  The first statement reads
the registry name through `data`, which is undefined when the output has been
freed: `none`. -/
def handleName (client : Client) (data : Nat) (name : String) : Option Client :=
  match deref client.outputs_ data with
  | none => none
  | some output => some (handleName_body client output.wl_name name)

/-- The client as `bindInterfaces` finds it: the parsed configuration, no
capability bound, no outputs and no bars. -/
def init (config : Value) : Client :=
  { layer_shell := none
    xdg_output_manager := none
    idle_inhibit_manager := none
    outputs_ := []
    bars := []
    config_ := config
    next_ptr := 1
    trace := [] }

end Client

/-- The three events the client listens to: `wl_registry.global`,
`wl_registry.global_remove` and `zxdg_output_v1.name`.  A `name` event is given
by the registry name its handler reads through `data`; every callback whose
`data` is live is such an event, also those for a registry name that is not in
the registry, which no live `data` can yield. -/
inductive Event where
  | global (name : Nat) (interface : String) (version : Nat)
  | global_remove (name : Nat)
  | name (wl_name : Nat) (name : String)

/-- One event dispatched to its handler. -/
def Client.dispatch (client : Client) : Event → Option Client
  | Event.global name interface version => some (client.handleGlobal name interface version)
  | Event.global_remove name => client.handleGlobalRemove name
  | Event.name wl_name name => some (client.handleName_body wl_name name)

/-- A sequence of events dispatched in order. -/
def Client.run (client : Client) : List Event → Option Client
  | [] => some client
  | e :: es =>
    match client.dispatch e with
    | none => none
    | some client => Client.run client es

/-- The number of `wl_output_destroy` calls made on a proxy in a trace. -/
def wl_output_destroy_count (trace : List Effect) (wl_output : Nat) : Nat :=
  trace.countP (fun call => match call with
    | Effect.wl_output_destroy p => p == wl_output
    | _ => false)

/-- The number of `zxdg_output_v1_destroy` calls made on a proxy in a trace. -/
def zxdg_output_v1_destroy_count (trace : List Effect) (xdg_output : Option Nat) : Nat :=
  trace.countP (fun call => match call with
    | Effect.zxdg_output_v1_destroy p => p == xdg_output
    | _ => false)

/-! ### Scenarios -/

/-- The configuration `{}`: one entry without selector. -/
def config_A : Value := Value.objectValue []

/-- The configuration `[{output:"DP-1"}, {output:["DP-1","HDMI-1"]}]`. -/
def config_B : Value :=
  Value.arrayValue
    [Value.objectValue [("output", Value.stringValue "DP-1")],
     Value.objectValue [("output", Value.arrayValue [Value.stringValue "DP-1", Value.stringValue "HDMI-1"])]]

/-- The configuration `{output:"HDMI-1"}`. -/
def config_C : Value := Value.objectValue [("output", Value.stringValue "HDMI-1")]

/-- The events of startup: the compositor advertises the layer shell and the
xdg-output manager. -/
def bootstrap : List Event :=
  [Event.global 1 zwlr_layer_shell_v1_interface.name 1, Event.global 2 zxdg_output_manager_v1_interface.name 2]

/-- The client after startup. -/
def client_started (config : Value) : Client :=
  Client.handleGlobal (Client.handleGlobal (Client.init config) 1 zwlr_layer_shell_v1_interface.name 1)
    2 zxdg_output_manager_v1_interface.name 2

/-- The client after startup and the advertisement of one output with
registry name 7. -/
def client_one_output (config : Value) : Client :=
  Client.handleGlobal (client_started config) 7 wl_output_interface.name 3

/-- The client after the only output resolved its name to "DP-1". -/
def client_resolved (config : Value) : Client :=
  Client.handleName_body (client_one_output config) 7 "DP-1"

/-- The client after a second output, with registry name 8, was advertised
and both outputs resolved their names, "DP-1" and "DP-2". -/
def client_two_outputs (config : Value) : Client :=
  Client.handleName_body
    (Client.handleName_body (Client.handleGlobal (client_one_output config) 8 wl_output_interface.name 3) 7 "DP-1")
    8 "DP-2"

end waybar

namespace waybar

open Json

namespace Client

/-! ## ConfigMatcher -/

theorem isValidOutput_in_array_iff (name : String) (xs : List Value) :
    isValidOutput_in_array name xs = true ↔ Value.stringValue name ∈ xs := by
  induction xs with
  | nil => simp [isValidOutput_in_array]
  | cons x rest ih =>
    cases x <;> simp [isValidOutput_in_array, Value.isString, Value.asString, ih]
    rename_i s
    by_cases h : s = name
    · simp [h]
    · simp [h]
      intro h1
      exact absurd h1.symm h

theorem isValidOutput_in_array_strings (name : String) (names : List String) :
    isValidOutput_in_array name (names.map Value.stringValue) = decide (name ∈ names) := by
  rw [Bool.eq_iff_iff, isValidOutput_in_array_iff]
  simp

theorem isValidOutput_object (members : List (String × Value)) (output : waybar_output) :
    isValidOutput (Value.objectValue members) output = .ok (isValidOutput_holds (Value.objectValue members) output) := by
  cases h : isValidOutput (Value.objectValue members) output with
  | error e => simp [isValidOutput, Value.index] at h
  | ok b => cases b <;> simp [isValidOutput_holds, h]

theorem getOutputConfigs_loop_eq (output : waybar_output) (xs configs : List Value) :
    getOutputConfigs_loop output xs configs =
      .ok (configs ++ xs.filter (fun config => config.isObject && isValidOutput_holds config output)) := by
  induction xs generalizing configs with
  | nil => simp [getOutputConfigs_loop]
  | cons x rest ih =>
    cases x with
    | objectValue members =>
      have hobj : (Value.objectValue members).isObject = true := rfl
      simp only [getOutputConfigs_loop, hobj, if_true, isValidOutput_object, List.filter_cons,
        Bool.true_and]
      cases isValidOutput_holds (Value.objectValue members) output <;> simp [ih]
    | nullValue => simp [getOutputConfigs_loop, ih, show Value.nullValue.isObject = false from rfl]
    | intValue i => simp [getOutputConfigs_loop, ih, show (Value.intValue i).isObject = false from rfl]
    | uintValue n => simp [getOutputConfigs_loop, ih, show (Value.uintValue n).isObject = false from rfl]
    | realValue r => simp [getOutputConfigs_loop, ih, show (Value.realValue r).isObject = false from rfl]
    | stringValue s => simp [getOutputConfigs_loop, ih, show (Value.stringValue s).isObject = false from rfl]
    | booleanValue b => simp [getOutputConfigs_loop, ih, show (Value.booleanValue b).isObject = false from rfl]
    | arrayValue a => simp [getOutputConfigs_loop, ih, show (Value.arrayValue a).isObject = false from rfl]

/-- C1: for an entry object and an output, `isValidOutput` returns true when the
entry has no "output" member, returns whether the string equals the output name
when the member is a string, and returns whether the output name is among the
strings when the member is a list of strings, so false when the list is empty. -/
theorem isValidOutput_selector_rule (members : List (String × Value)) (output : waybar_output) :
    (members.lookup "output" = none →
      isValidOutput (Value.objectValue members) output = .ok true) ∧
    (∀ s : String, members.lookup "output" = some (Value.stringValue s) →
      isValidOutput (Value.objectValue members) output = .ok (decide (s = output.name))) ∧
    (∀ names : List String, members.lookup "output" = some (Value.arrayValue (names.map Value.stringValue)) →
      isValidOutput (Value.objectValue members) output = .ok (decide (output.name ∈ names))) ∧
    (members.lookup "output" = some (Value.arrayValue []) →
      isValidOutput (Value.objectValue members) output = .ok false) := by
  refine ⟨?_, ?_, ?_, ?_⟩
  · intro h
    simp [isValidOutput, Value.index, h, Value.isArray, Value.isString]
  · intro s h
    simp [isValidOutput, Value.index, h, Value.isArray, Value.isString, Value.asString]
  · intro names h
    simp only [isValidOutput, Value.index, h, Value.isArray, Value.isString, Value.elements,
      isValidOutput_in_array_strings, Option.getD_some]
    simp
  · intro h
    simp [isValidOutput, Value.index, h, Value.isArray, Value.isString, Value.elements,
      isValidOutput_in_array]

/-- The list case of the selector rule on the entry `{output:["DP-1","HDMI-1"]}` and an
output named "HDMI-1". -/
theorem isValidOutput_selector_rule_witness :
    Client.isValidOutput
        (Value.objectValue [("output", Value.arrayValue (["DP-1", "HDMI-1"].map Value.stringValue))])
        { output := 3, name := "HDMI-1", wl_name := 7, xdg_output := some 5 } =
      .ok (decide ("HDMI-1" ∈ ["DP-1", "HDMI-1"])) :=
  (isValidOutput_selector_rule _ _).2.2.1 ["DP-1", "HDMI-1"] (by simp [List.lookup])

/-- C2: when the configuration is a sequence, `getOutputConfigs` returns the
elements that are objects and for which `isValidOutput` returns true, each once
and in the order of the configuration: the result is that filter of the
sequence, a subsequence of it, and holds exactly the accepted objects. -/
theorem getOutputConfigs_stable_filter (client : Client) (output : waybar_output) (xs : List Value) :
    ∃ configs,
      getOutputConfigs { client with config_ := Value.arrayValue xs } output = .ok configs ∧
      configs = xs.filter (fun config => config.isObject && isValidOutput_holds config output) ∧
      configs.Sublist xs ∧
      ∀ config, config ∈ configs ↔
        (config ∈ xs ∧ config.isObject = true ∧ isValidOutput config output = .ok true) := by
  have hloop := getOutputConfigs_loop_eq output xs []
  rw [List.nil_append] at hloop
  refine ⟨_, ?_, rfl, List.filter_sublist _, ?_⟩
  · simp only [getOutputConfigs, Value.isArray, Value.elements, if_true]
    exact hloop
  · intro config
    have hholds : isValidOutput_holds config output = true ↔ isValidOutput config output = .ok true := by
      unfold isValidOutput_holds
      split
      · next h => simp [h]
      · next h =>
        constructor
        · intro hf; cases hf
        · intro ht; exact absurd ht (h)
    simp only [List.mem_filter, Bool.and_eq_true, hholds]

/-- C3: when the configuration is a single entry object, `isValidOutput`
returns for it, and `getOutputConfigs` returns the one-element sequence holding
the entry if it was accepted and the empty sequence otherwise; never more than
one element. -/
theorem getOutputConfigs_single_entry (client : Client) (output : waybar_output)
    (members : List (String × Value)) :
    ∃ accepted configs,
      isValidOutput (Value.objectValue members) output = .ok accepted ∧
      getOutputConfigs { client with config_ := Value.objectValue members } output = .ok configs ∧
      configs = (if accepted then [Value.objectValue members] else []) ∧
      configs.length ≤ 1 := by
  refine ⟨isValidOutput_holds (Value.objectValue members) output, _, isValidOutput_object members output,
    ?_, rfl, ?_⟩
  · simp only [getOutputConfigs, Value.isArray, isValidOutput_object]
    cases isValidOutput_holds (Value.objectValue members) output <;> simp
  · cases isValidOutput_holds (Value.objectValue members) output <;> simp

/-! ## Registry lookups -/

theorem find_if_none_iff {α : Type} (p : α → Bool) (xs : List α) :
    find_if p xs = none ↔ ∀ x ∈ xs, p x = false := by
  induction xs with
  | nil => simp [find_if]
  | cons x rest ih =>
    by_cases hx : p x = true
    · simp [find_if, hx]
    · simp only [Bool.not_eq_true] at hx
      simp only [find_if, hx, Bool.false_eq_true, if_false, List.mem_cons, forall_eq_or_imp, true_and]
      rw [← ih]
      cases find_if p rest <;> simp

theorem find_if_some {α : Type} (p : α → Bool) (xs : List α) (i : Nat) (x : α)
    (h : find_if p xs = some (i, x)) :
    xs[i]? = some x ∧ p x = true := by
  induction xs generalizing i with
  | nil => simp [find_if] at h
  | cons y rest ih =>
    by_cases hy : p y = true
    · simp [find_if, hy] at h
      obtain ⟨h1, h2⟩ := h
      subst h1; subst h2
      simp [hy]
    · simp only [Bool.not_eq_true] at hy
      simp only [find_if, hy, Bool.false_eq_true, if_false] at h
      cases hr : find_if p rest with
      | none => simp [hr] at h
      | some jy =>
        obtain ⟨j, z⟩ := jy
        simp [hr] at h
        obtain ⟨h1, h2⟩ := h
        subst h1; subst h2
        simpa using ih j hr

theorem find_if_isSome_of_mem {α : Type} (p : α → Bool) (xs : List α) (x : α)
    (hx : x ∈ xs) (hp : p x = true) : ∃ it, find_if p xs = some it := by
  cases h : find_if p xs with
  | some it => exact ⟨it, rfl⟩
  | none =>
    rw [find_if_none_iff] at h
    have := h x hx
    simp [hp] at this

theorem deref_isSome_of_mem (outputs_ : List (Nat × waybar_output)) (addr : Nat) (output : waybar_output)
    (h : (addr, output) ∈ outputs_) : (deref outputs_ addr).isSome = true := by
  induction outputs_ with
  | nil => simp at h
  | cons y rest ih =>
    obtain ⟨a, o⟩ := y
    by_cases ha : addr = a
    · subst ha
      simp [deref, List.lookup]
    · have hne : (addr == a) = false := by simpa using ha
      simp only [deref, List.lookup, hne]
      simp only [List.mem_cons, Prod.mk.injEq] at h
      rcases h with h | h
      · exact absurd h.1 ha
      · exact ih h

theorem mem_of_deref (outputs_ : List (Nat × waybar_output)) (addr : Nat) (output : waybar_output)
    (h : deref outputs_ addr = some output) : (addr, output) ∈ outputs_ := by
  induction outputs_ with
  | nil => simp [deref, List.lookup] at h
  | cons y rest ih =>
    obtain ⟨a, o⟩ := y
    by_cases ha : addr = a
    · subst ha
      simp [deref, List.lookup] at h
      simp [h]
    · have hne : (addr == a) = false := by simpa using ha
      simp only [deref, List.lookup, hne] at h
      exact List.mem_cons_of_mem _ (ih h)

theorem deref_of_mem_nodup (outputs_ : List (Nat × waybar_output)) (addr : Nat) (output : waybar_output)
    (hnd : (addresses outputs_).Nodup) (h : (addr, output) ∈ outputs_) :
    deref outputs_ addr = some output := by
  have hs := deref_isSome_of_mem outputs_ addr output h
  cases hd : deref outputs_ addr with
  | none => simp [hd] at hs
  | some output1 =>
    have hmem := mem_of_deref _ _ _ hd
    have hinj := List.inj_on_of_nodup_map hnd hmem h rfl
    rw [(Prod.mk.inj hinj).2]

theorem addresses_set (xs : List (Nat × waybar_output)) (i addr : Nat) (output output1 : waybar_output)
    (hidx : xs[i]? = some (addr, output)) :
    addresses (xs.set i (addr, output1)) = addresses xs := by
  induction xs generalizing i with
  | nil => simp at hidx
  | cons y rest ih =>
    cases i with
    | zero =>
      simp at hidx
      subst hidx
      simp [addresses]
    | succ j =>
      simp at hidx
      have := ih j hidx
      simp only [addresses] at this
      simp [addresses, this]

theorem deref_append (xs ys : List (Nat × waybar_output)) (addr : Nat)
    (h : (deref xs addr).isSome = true) : deref (xs ++ ys) addr = deref xs addr := by
  induction xs with
  | nil => simp [deref, List.lookup] at h
  | cons y rest ih =>
    obtain ⟨a, o⟩ := y
    by_cases ha : addr = a
    · subst ha
      simp [deref, List.lookup]
    · have hne : (addr == a) = false := by simpa using ha
      simp only [deref, List.lookup, hne, List.cons_append] at h ⊢
      exact ih h

theorem deref_set_isSome (xs : List (Nat × waybar_output)) (i a : Nat) (o o1 : waybar_output)
    (hi : xs[i]? = some (a, o)) (addr : Nat) :
    (deref (xs.set i (a, o1)) addr).isSome = (deref xs addr).isSome := by
  induction xs generalizing i with
  | nil => simp at hi
  | cons y rest ih =>
    obtain ⟨b, ob⟩ := y
    cases i with
    | zero =>
      simp at hi
      obtain ⟨h1, h2⟩ := hi
      subst h1
      by_cases ha : addr = b
      · simp [deref, List.lookup, ha]
      · have hne : (addr == b) = false := by simpa using ha
        simp [deref, List.lookup, hne]
    | succ j =>
      simp at hi
      by_cases ha : addr = b
      · simp [deref, List.lookup, ha]
      · have hne : (addr == b) = false := by simpa using ha
        simp only [deref, List.lookup, hne, List.set_cons_succ]
        exact ih j hi

theorem deref_eraseIdx (xs : List (Nat × waybar_output)) (name i : Nat) (x : Nat × waybar_output)
    (hfind : find_if (fun output => output.2.wl_name == name) xs = some (i, x))
    (addr : Nat) (o : waybar_output) (hd : deref xs addr = some o) (hne : o.wl_name ≠ name) :
    deref (xs.eraseIdx i) addr = some o := by
  induction xs generalizing i with
  | nil => simp [find_if] at hfind
  | cons y rest ih =>
    obtain ⟨b, ob⟩ := y
    by_cases hy : ob.wl_name = name
    · simp [find_if, hy] at hfind
      obtain ⟨h1, h2⟩ := hfind
      subst h1
      by_cases ha : addr = b
      · simp [deref, List.lookup, ha] at hd
        subst hd
        exact absurd hy hne
      · have hab : (addr == b) = false := by simpa using ha
        simp only [deref, List.lookup, hab] at hd
        simpa [deref] using hd
    · have hyb : (ob.wl_name == name) = false := by simpa using hy
      simp only [find_if, hyb, Bool.false_eq_true, if_false] at hfind
      cases hr : find_if (fun output => output.2.wl_name == name) rest with
      | none => simp [hr] at hfind
      | some jy =>
        obtain ⟨j, z⟩ := jy
        simp [hr] at hfind
        obtain ⟨h1, h2⟩ := hfind
        subst h1; subst h2
        by_cases ha : addr = b
        · simp [deref, List.lookup, ha] at hd ⊢
          exact hd
        · have hab : (addr == b) = false := by simpa using ha
          simp only [deref, List.lookup, hab, List.eraseIdx_cons_succ] at hd ⊢
          exact ih j hr hd


/-! ## Handlers -/

theorem handleGlobal_wl_output (client : Client) (name version : Nat) :
    handleGlobal client name wl_output_interface.name version =
      { client with
        outputs_ := client.outputs_ ++
          [(client.next_ptr + 1,
            { output := client.next_ptr, name := "", wl_name := name, xdg_output := some (client.next_ptr + 2) })]
        next_ptr := client.next_ptr + 3
        trace := client.trace ++
          [Effect.wl_registry_bind name wl_output_interface.name version client.next_ptr,
           Effect.zxdg_output_manager_v1_get_xdg_output client.xdg_output_manager client.next_ptr
             (client.next_ptr + 2),
           Effect.zxdg_output_v1_add_listener (some (client.next_ptr + 2)) (client.next_ptr + 1)] } := by
  have h1 : (wl_output_interface.name == zwlr_layer_shell_v1_interface.name) = false := by decide
  simp [handleGlobal, h1, wl_registry_bind, handleOutput]

theorem handleGlobal_other (client : Client) (name version : Nat) (interface : String)
    (h : interface ≠ wl_output_interface.name) :
    (handleGlobal client name interface version).outputs_ = client.outputs_ ∧
    (handleGlobal client name interface version).bars = client.bars := by
  have h1 : (interface == wl_output_interface.name) = false := by simpa using h
  unfold handleGlobal
  simp only [h1, Bool.false_eq_true, if_false]
  split
  · simp [wl_registry_bind]
  · split
    · simp [wl_registry_bind]
    · split
      · simp [wl_registry_bind]
      · simp

theorem handleGlobal_bars (client : Client) (name version : Nat) (interface : String) :
    (handleGlobal client name interface version).bars = client.bars := by
  by_cases h : interface = wl_output_interface.name
  · subst h
    rw [handleGlobal_wl_output]
  · exact (handleGlobal_other client name version interface h).2

theorem handleName_bars_eq (addr : Nat) (client : Client) (configs : List Value) :
    handleName_bars addr client configs =
      { client with
        bars := client.bars ++ configs.map (fun config => { output := addr, config := config })
        trace := client.trace ++ configs.flatMap (fun config =>
          [Effect.make_unique_Bar addr config,
           Effect.add_provider_for_screen { output := addr, config := config }]) } := by
  induction configs generalizing client with
  | nil => simp [handleName_bars]
  | cons config rest ih => simp [handleName_bars, ih]

theorem getOutputConfigs_config (client client1 : Client) (output : waybar_output)
    (h : client1.config_ = client.config_) :
    getOutputConfigs client1 output = getOutputConfigs client output := by
  simp [getOutputConfigs, h]

theorem handleGlobalRemove_bars_eq (outputs_ : List (Nat × waybar_output)) (name : Nat) (bars : List Bar)
    (hlive : ∀ bar ∈ bars, (deref outputs_ bar.output).isSome = true) :
    ∃ calls, handleGlobalRemove_bars outputs_ name bars =
      some (bars.filter (fun bar => !bound_to outputs_ name bar), calls) := by
  induction bars with
  | nil => exact ⟨[], by simp [handleGlobalRemove_bars]⟩
  | cons bar rest ih =>
    have hrest : ∀ b ∈ rest, (deref outputs_ b.output).isSome = true :=
      fun b hb => hlive b (List.mem_cons_of_mem _ hb)
    obtain ⟨calls, hcalls⟩ := ih hrest
    have hbar := hlive bar (List.mem_cons_self _ _)
    cases hd : deref outputs_ bar.output with
    | none => simp [hd] at hbar
    | some output =>
      by_cases hn : output.wl_name = name
      · refine ⟨[Effect.window_close bar, Effect.cout ("Bar removed from output: " ++ output.name)] ++ calls, ?_⟩
        simp [handleGlobalRemove_bars, hd, hcalls, hn, bound_to]
      · refine ⟨calls, ?_⟩
        simp [handleGlobalRemove_bars, hd, hcalls, hn, bound_to]


/-! ## Bars follow name resolution and removal -/

theorem handleName_live_data (client : Client) (data : Nat) (name : String) (output : waybar_output)
    (wl_name : Nat) (hd : deref client.outputs_ data = some output) (hn : output.wl_name = wl_name) :
    handleName client data name = some (handleName_body client wl_name name) := by
  simp [handleName, hd, hn]

theorem getOutput_of_mem (client : Client) (wl_name : Nat) (h : wl_name ∈ wl_names client.outputs_) :
    ∃ i addr output, getOutput client wl_name = .ok (i, (addr, output)) ∧
      client.outputs_[i]? = some (addr, output) ∧ output.wl_name = wl_name := by
  simp only [wl_names, List.mem_map] at h
  obtain ⟨x, hx, hxn⟩ := h
  obtain ⟨it, hit⟩ := find_if_isSome_of_mem (fun output => output.2.wl_name == wl_name) client.outputs_ x hx
    (by simpa using hxn)
  obtain ⟨i, addr, output⟩ := it
  have hs := find_if_some _ _ _ _ hit
  refine ⟨i, addr, output, ?_, hs.1, ?_⟩
  · simp [getOutput, hit]
  · simpa using hs.2

theorem handleName_found (client : Client) (wl_name : Nat) (name : String) (i addr : Nat)
    (output : waybar_output) (h : getOutput client wl_name = .ok (i, (addr, output))) :
    handleName_body client wl_name name =
      (match getOutputConfigs client { output with name := name } with
       | .error e =>
         { client with
           outputs_ := client.outputs_.set i (addr, { output with name := name })
           trace := client.trace ++ [Effect.cerr e.what] }
       | .ok configs =>
         if configs.isEmpty then
           { client with
             outputs_ := client.outputs_.set i (addr, { output with name := name })
             trace := client.trace ++
               [Effect.wl_output_destroy output.output, Effect.zxdg_output_v1_destroy output.xdg_output] }
         else
           { client with
             outputs_ := client.outputs_.set i (addr, { output with name := name })
             bars := client.bars ++ configs.map (fun config => { output := addr, config := config })
             trace := client.trace ++ configs.flatMap (fun config =>
               [Effect.make_unique_Bar addr config,
                Effect.add_provider_for_screen { output := addr, config := config }]) }) := by
  have hc : getOutputConfigs
      { client with outputs_ := client.outputs_.set i (addr, { output with name := name }) }
      { output with name := name } = getOutputConfigs client { output with name := name } :=
    getOutputConfigs_config _ _ _ rfl
  simp only [handleName_body, h, hc]
  cases getOutputConfigs client { output with name := name } with
  | error e => rfl
  | ok configs =>
    by_cases he : configs.isEmpty = true
    · simp [he]
    · simp [he, handleName_bars_eq]

theorem windows_created_append (xs ys : List Effect) :
    windows_created (xs ++ ys) = windows_created xs + windows_created ys := by
  simp [windows_created, List.countP_append]

theorem windows_created_bars (addr : Nat) (configs : List Value) :
    windows_created (configs.flatMap (fun config =>
      [Effect.make_unique_Bar addr config,
       Effect.add_provider_for_screen { output := addr, config := config }])) = configs.length := by
  induction configs with
  | nil => rfl
  | cons config rest ih =>
    have hcons : (config :: rest).flatMap (fun config =>
        [Effect.make_unique_Bar addr config,
         Effect.add_provider_for_screen { output := addr, config := config }]) =
        [Effect.make_unique_Bar addr config,
         Effect.add_provider_for_screen { output := addr, config := config }] ++
        rest.flatMap (fun config =>
          [Effect.make_unique_Bar addr config,
           Effect.add_provider_for_screen { output := addr, config := config }]) := by
      simp
    rw [hcons, windows_created_append, ih]
    simp [windows_created, List.countP_cons]
    omega

/-- C4: when `wl_name` is in the registry, `handleName`, having read `wl_name`,
finds the first output with that registry name, and the bar list afterwards is
the previous bar list followed by one bar per entry `getOutputConfigs` returns
for the new name, in that order, each holding the address of that output and its
entry; one window is built per entry, so none when no entry matches.  With the
outputs at distinct addresses, a bar holding that address is bound to
`wl_name`.  Every callback whose `data` points to a live output with that
registry name runs to this state. -/
theorem handleName_appends_bars (client : Client) (wl_name : Nat) (name : String)
    (h : wl_name ∈ wl_names client.outputs_) :
    ∃ i addr output,
      getOutput client wl_name = .ok (i, (addr, output)) ∧
      output.wl_name = wl_name ∧
      (handleName_body client wl_name name).outputs_[i]? = some (addr, { output with name := name }) ∧
      (handleName_body client wl_name name).bars =
        client.bars ++ (getOutputConfigs_result client { output with name := name }).map
          (fun config => { output := addr, config := config }) ∧
      windows_created (handleName_body client wl_name name).trace =
        windows_created client.trace +
          (getOutputConfigs_result client { output with name := name }).length ∧
      (getOutputConfigs_result client { output with name := name } = [] →
        (handleName_body client wl_name name).bars = client.bars ∧
        windows_created (handleName_body client wl_name name).trace = windows_created client.trace) ∧
      ((addresses client.outputs_).Nodup → ∀ config : Value,
        bound_to (handleName_body client wl_name name).outputs_ wl_name { output := addr, config := config } =
          true) ∧
      (∀ data output0, deref client.outputs_ data = some output0 → output0.wl_name = wl_name →
        handleName client data name = some (handleName_body client wl_name name)) := by
  obtain ⟨i, addr, output, hget, hidx, hname⟩ := getOutput_of_mem client wl_name h
  have hlt : i < client.outputs_.length := by
    by_contra hcon
    rw [List.getElem?_eq_none (by omega)] at hidx
    cases hidx
  have hset : (client.outputs_.set i (addr, { output with name := name }))[i]? =
      some (addr, { output with name := name }) := by
    simp [List.getElem?_set, hlt]
  have hout : (handleName_body client wl_name name).outputs_ =
      client.outputs_.set i (addr, { output with name := name }) := by
    rw [handleName_found client wl_name name i addr output hget]
    cases getOutputConfigs client { output with name := name } with
    | error e => rfl
    | ok configs => by_cases he : configs.isEmpty = true <;> simp [he]
  have hbound : (addresses client.outputs_).Nodup → ∀ config : Value,
      bound_to (handleName_body client wl_name name).outputs_ wl_name { output := addr, config := config } =
        true := by
    intro hnd config
    rw [hout]
    have hnd1 : (addresses (client.outputs_.set i (addr, { output with name := name }))).Nodup := by
      rw [addresses_set _ _ _ _ _ hidx]
      exact hnd
    have hmem : (addr, { output with name := name }) ∈
        client.outputs_.set i (addr, { output with name := name }) :=
      List.mem_iff_getElem?.mpr ⟨i, hset⟩
    have hd := deref_of_mem_nodup _ _ _ hnd1 hmem
    simp only [bound_to, hd]
    simpa using hname
  have hrest :
      (handleName_body client wl_name name).outputs_[i]? = some (addr, { output with name := name }) ∧
      (handleName_body client wl_name name).bars =
        client.bars ++ (getOutputConfigs_result client { output with name := name }).map
          (fun config => { output := addr, config := config }) ∧
      windows_created (handleName_body client wl_name name).trace =
        windows_created client.trace +
          (getOutputConfigs_result client { output with name := name }).length ∧
      (getOutputConfigs_result client { output with name := name } = [] →
        (handleName_body client wl_name name).bars = client.bars ∧
        windows_created (handleName_body client wl_name name).trace = windows_created client.trace) := by
    rw [handleName_found client wl_name name i addr output hget]
    simp only [getOutputConfigs_result]
    cases getOutputConfigs client { output with name := name } with
    | error e => simp [hset, windows_created_append, windows_created]
    | ok configs =>
      by_cases he : configs.isEmpty = true
      · have hnil : configs = [] := by simpa using he
        subst hnil
        simp [hset, windows_created_append, windows_created]
      · have hne : configs ≠ [] := by simpa using he
        simp [he, hset, hne, windows_created_append, windows_created_bars]
  obtain ⟨h1, h2, h3, h4⟩ := hrest
  exact ⟨i, addr, output, hget, hname, h1, h2, h3, h4, hbound,
    fun data output0 hd hn => handleName_live_data client data name output0 wl_name hd hn⟩

theorem filter_eraseIdx_find_if (xs : List (Nat × waybar_output)) (name i : Nat) (x : Nat × waybar_output)
    (hfind : find_if (fun output => output.2.wl_name == name) xs = some (i, x)) :
    (xs.eraseIdx i).filter (fun output => output.2.wl_name != name) =
      xs.filter (fun output => output.2.wl_name != name) := by
  induction xs generalizing i with
  | nil => simp [find_if] at hfind
  | cons y rest ih =>
    by_cases hy : y.2.wl_name = name
    · simp [find_if, hy] at hfind
      obtain ⟨h1, _⟩ := hfind
      subst h1
      simp [List.filter_cons, hy]
    · have hyb : (y.2.wl_name == name) = false := by simpa using hy
      simp only [find_if, hyb, Bool.false_eq_true, if_false] at hfind
      cases hr : find_if (fun output => output.2.wl_name == name) rest with
      | none => simp [hr] at hfind
      | some jy =>
        obtain ⟨j, z⟩ := jy
        simp [hr] at hfind
        obtain ⟨h1, h2⟩ := hfind
        subst h1; subst h2
        simp [List.filter_cons, hy, ih j hr]

theorem wl_names_eraseIdx_find_if (xs : List (Nat × waybar_output)) (name i : Nat) (x : Nat × waybar_output)
    (hfind : find_if (fun output => output.2.wl_name == name) xs = some (i, x)) :
    wl_names (xs.eraseIdx i) = (wl_names xs).erase name := by
  induction xs generalizing i with
  | nil => simp [find_if] at hfind
  | cons y rest ih =>
    by_cases hy : y.2.wl_name = name
    · simp [find_if, hy] at hfind
      obtain ⟨h1, _⟩ := hfind
      subst h1
      simp [wl_names, hy]
    · have hyb : (y.2.wl_name == name) = false := by simpa using hy
      simp only [find_if, hyb, Bool.false_eq_true, if_false] at hfind
      cases hr : find_if (fun output => output.2.wl_name == name) rest with
      | none => simp [hr] at hfind
      | some jy =>
        obtain ⟨j, z⟩ := jy
        simp [hr] at hfind
        obtain ⟨h1, h2⟩ := hfind
        subst h1; subst h2
        have := ih j hr
        simp only [wl_names] at this
        simp [wl_names, List.erase_cons, hyb, this]

theorem wl_names_erase_of_find_if_none (xs : List (Nat × waybar_output)) (name : Nat)
    (hfind : find_if (fun output => output.2.wl_name == name) xs = none) :
    (wl_names xs).erase name = wl_names xs := by
  rw [find_if_none_iff] at hfind
  apply List.erase_of_not_mem
  simp only [wl_names, List.mem_map, not_exists, not_and]
  intro x hx hxn
  have := hfind x hx
  simp [hxn] at this

theorem bars_live_iff (client : Client) :
    bars_live client = true ↔ ∀ bar ∈ client.bars, (deref client.outputs_ bar.output).isSome = true := by
  simp [bars_live, List.all_eq_true]

/-- What `handleGlobalRemove` does to the bars and the registry when no bar
pointer dangles. -/
theorem handleGlobalRemove_spec (client : Client) (name : Nat) (hlive : bars_live client = true) :
    ∃ client1, handleGlobalRemove client name = some client1 ∧
      client1.bars = client.bars.filter (fun bar => !bound_to client.outputs_ name bar) ∧
      client1.outputs_.filter (fun output => output.2.wl_name != name) =
        client.outputs_.filter (fun output => output.2.wl_name != name) ∧
      wl_names client1.outputs_ = (wl_names client.outputs_).erase name ∧
      (∀ bar ∈ client1.bars, deref client1.outputs_ bar.output = deref client.outputs_ bar.output) ∧
      bars_live client1 = true := by
  rw [bars_live_iff] at hlive
  obtain ⟨calls, hcalls⟩ := handleGlobalRemove_bars_eq client.outputs_ name client.bars hlive
  have hkeep : ∀ bar ∈ client.bars.filter (fun bar => !bound_to client.outputs_ name bar),
      ∃ o, deref client.outputs_ bar.output = some o ∧ o.wl_name ≠ name := by
    intro bar hbar
    simp only [List.mem_filter] at hbar
    obtain ⟨hmem, hnb⟩ := hbar
    have hs := hlive bar hmem
    cases hd : deref client.outputs_ bar.output with
    | none => simp [hd] at hs
    | some o =>
      refine ⟨o, rfl, ?_⟩
      simpa [bound_to, hd] using hnb
  cases hfind : find_if (fun output => output.2.wl_name == name) client.outputs_ with
  | none =>
    refine ⟨{ client with bars := client.bars.filter (fun bar => !bound_to client.outputs_ name bar),
                          trace := client.trace ++ calls }, ?_, rfl, rfl, ?_, ?_, ?_⟩
    · simp [handleGlobalRemove, hcalls, hfind]
    · exact (wl_names_erase_of_find_if_none _ _ hfind).symm
    · intro bar _; rfl
    · rw [bars_live_iff]
      intro bar hbar
      obtain ⟨o, ho, _⟩ := hkeep bar hbar
      simp [ho]
  | some it =>
    obtain ⟨i, addr, output⟩ := it
    have hderef : ∀ bar ∈ client.bars.filter (fun bar => !bound_to client.outputs_ name bar),
        deref (client.outputs_.eraseIdx i) bar.output = deref client.outputs_ bar.output := by
      intro bar hbar
      obtain ⟨o, ho, hne⟩ := hkeep bar hbar
      rw [ho]
      exact deref_eraseIdx _ _ _ _ hfind _ _ ho hne
    refine ⟨{ client with
              bars := client.bars.filter (fun bar => !bound_to client.outputs_ name bar)
              outputs_ := client.outputs_.eraseIdx i
              trace := (client.trace ++ calls) ++
                [Effect.zxdg_output_v1_destroy output.xdg_output, Effect.wl_output_destroy output.output] },
            ?_, rfl, ?_, ?_, hderef, ?_⟩
    · simp [handleGlobalRemove, hcalls, hfind]
    · exact filter_eraseIdx_find_if _ _ _ _ hfind
    · exact wl_names_eraseIdx_find_if _ _ _ _ hfind
    · rw [bars_live_iff]
      intro bar hbar
      obtain ⟨o, ho, _⟩ := hkeep bar hbar
      have := hderef bar hbar
      simp only at this ⊢
      rw [this, ho]
      rfl

/-- C7: when no bar pointer dangles, `handleGlobalRemove` returns, the bar
list afterwards is the previous one without the bars bound to the removed
registry name and with the other bars in their order, the outputs with another
registry name are the same records in the same order, exactly the first output
with the removed name has left the registry, and the bars that stay still point
to the same outputs. -/
theorem handleGlobalRemove_frame (client : Client) (name : Nat) (hlive : bars_live client = true) :
    ∃ client1, handleGlobalRemove client name = some client1 ∧
      client1.bars = client.bars.filter (fun bar => !bound_to client.outputs_ name bar) ∧
      client1.outputs_.filter (fun output => output.2.wl_name != name) =
        client.outputs_.filter (fun output => output.2.wl_name != name) ∧
      wl_names client1.outputs_ = (wl_names client.outputs_).erase name ∧
      (∀ bar ∈ client1.bars, deref client1.outputs_ bar.output = deref client.outputs_ bar.output) := by
  obtain ⟨client1, h1, h2, h3, h4, h5, _⟩ := handleGlobalRemove_spec client name hlive
  exact ⟨client1, h1, h2, h3, h4, h5⟩


/-! ## Reachable states -/

theorem handleGlobal_live (client : Client) (name version : Nat) (interface : String)
    (hlive : bars_live client = true) :
    bars_live (handleGlobal client name interface version) = true := by
  rw [bars_live_iff] at hlive ⊢
  rw [handleGlobal_bars]
  intro bar hbar
  by_cases h : interface = wl_output_interface.name
  · subst h
    rw [handleGlobal_wl_output]
    simp only
    rw [deref_append _ _ _ (hlive bar hbar)]
    exact hlive bar hbar
  · rw [(handleGlobal_other client name version interface h).1]
    exact hlive bar hbar

theorem handleName_not_found (client : Client) (wl_name : Nat) (name : String)
    (h : wl_name ∉ wl_names client.outputs_) :
    getOutput client wl_name = .error (Exception.runtime_error "Unable to find valid output") ∧
    handleName_body client wl_name name =
      { client with trace := client.trace ++ [Effect.cerr "Unable to find valid output"] } := by
  have hfind : find_if (fun output => output.2.wl_name == wl_name) client.outputs_ = none := by
    rw [find_if_none_iff]
    intro x hx
    simp only [wl_names, List.mem_map, not_exists, not_and] at h
    simpa using h x hx
  have hget : getOutput client wl_name = .error (Exception.runtime_error "Unable to find valid output") := by
    simp [getOutput, hfind]
  refine ⟨hget, ?_⟩
  simp [handleName_body, hget, Exception.what]

theorem handleName_cases (client : Client) (wl_name : Nat) (name : String) :
    (wl_name ∉ wl_names client.outputs_ ∧
      (handleName_body client wl_name name).outputs_ = client.outputs_ ∧
      (handleName_body client wl_name name).bars = client.bars) ∨
    (∃ i addr output, client.outputs_[i]? = some (addr, output) ∧ output.wl_name = wl_name ∧
      (handleName_body client wl_name name).outputs_ = client.outputs_.set i (addr, { output with name := name }) ∧
      (handleName_body client wl_name name).bars =
        client.bars ++ (getOutputConfigs_result client { output with name := name }).map
          (fun config => { output := addr, config := config })) := by
  by_cases h : wl_name ∈ wl_names client.outputs_
  · right
    obtain ⟨i, addr, output, hget, hidx, hname⟩ := getOutput_of_mem client wl_name h
    refine ⟨i, addr, output, hidx, hname, ?_⟩
    rw [handleName_found client wl_name name i addr output hget]
    simp only [getOutputConfigs_result]
    cases getOutputConfigs client { output with name := name } with
    | error e => simp
    | ok configs =>
      by_cases he : configs.isEmpty = true
      · have hnil : configs = [] := by simpa using he
        subst hnil
        simp
      · simp [he]
  · left
    refine ⟨h, ?_⟩
    rw [(handleName_not_found client wl_name name h).2]
    exact ⟨rfl, rfl⟩

theorem wl_names_set (xs : List (Nat × waybar_output)) (i addr : Nat) (output : waybar_output)
    (name : String) (hidx : xs[i]? = some (addr, output)) :
    wl_names (xs.set i (addr, { output with name := name })) = wl_names xs := by
  induction xs generalizing i with
  | nil => simp at hidx
  | cons y rest ih =>
    cases i with
    | zero =>
      simp at hidx
      subst hidx
      simp [wl_names]
    | succ j =>
      simp at hidx
      have := ih j hidx
      simp only [wl_names] at this
      simp [wl_names, this]

theorem handleName_live (client : Client) (wl_name : Nat) (name : String)
    (hlive : bars_live client = true) :
    bars_live (handleName_body client wl_name name) = true := by
  rw [bars_live_iff] at hlive ⊢
  rcases handleName_cases client wl_name name with ⟨_, ho, hb⟩ | ⟨i, addr, output, hidx, _, ho, hb⟩
  · rw [ho, hb]
    exact hlive
  · rw [ho, hb]
    intro bar hbar
    rw [List.mem_append] at hbar
    rcases hbar with hbar | hbar
    · rw [deref_set_isSome _ _ _ _ _ hidx]
      exact hlive bar hbar
    · simp only [List.mem_map] at hbar
      obtain ⟨config, _, hcfg⟩ := hbar
      subst hcfg
      apply deref_isSome_of_mem _ addr { output with name := name }
      have hlt : i < client.outputs_.length := by
        by_contra hcon
        rw [List.getElem?_eq_none (by omega)] at hidx
        cases hidx
      exact List.mem_iff_getElem?.mpr ⟨i, by simp [List.getElem?_set, hlt]⟩

theorem dispatch_live (client : Client) (e : Event) (hlive : bars_live client = true) :
    ∃ client1, dispatch client e = some client1 ∧ bars_live client1 = true := by
  cases e with
  | global name interface version => exact ⟨_, rfl, handleGlobal_live client name version interface hlive⟩
  | global_remove name =>
    obtain ⟨client1, h1, _, _, _, _, h6⟩ := handleGlobalRemove_spec client name hlive
    exact ⟨client1, h1, h6⟩
  | name wl_name name => exact ⟨_, rfl, handleName_live client wl_name name hlive⟩

theorem run_live (client : Client) (events : List Event) (hlive : bars_live client = true) :
    ∃ client1, run client events = some client1 ∧ bars_live client1 = true := by
  induction events generalizing client with
  | nil => exact ⟨client, rfl, hlive⟩
  | cons e rest ih =>
    obtain ⟨client1, h1, hlive1⟩ := dispatch_live client e hlive
    obtain ⟨client2, h2, hlive2⟩ := ih client1 hlive1
    exact ⟨client2, by simp [run, h1, h2], hlive2⟩

/-! ## Addresses -/

theorem heap_fresh_iff (client : Client) :
    heap_fresh client = true ↔
      (addresses client.outputs_).Nodup ∧ ∀ a ∈ addresses client.outputs_, a < client.next_ptr := by
  simp [heap_fresh, List.all_eq_true]

theorem handleGlobal_other_next_ptr (client : Client) (name version : Nat) (interface : String)
    (h : interface ≠ wl_output_interface.name) :
    client.next_ptr ≤ (handleGlobal client name interface version).next_ptr := by
  have h1 : (interface == wl_output_interface.name) = false := by simpa using h
  unfold handleGlobal
  simp only [h1, Bool.false_eq_true, if_false]
  split
  · simp [wl_registry_bind]
  · split
    · simp [wl_registry_bind]
    · split
      · simp [wl_registry_bind]
      · simp

theorem handleGlobal_fresh (client : Client) (name version : Nat) (interface : String)
    (hfresh : heap_fresh client = true) :
    heap_fresh (handleGlobal client name interface version) = true := by
  rw [heap_fresh_iff] at hfresh ⊢
  obtain ⟨hnd, hlt⟩ := hfresh
  by_cases h : interface = wl_output_interface.name
  · subst h
    rw [handleGlobal_wl_output]
    simp only [addresses, List.map_append, List.map_cons, List.map_nil]
    constructor
    · rw [List.nodup_append]
      refine ⟨hnd, List.nodup_singleton _, ?_⟩
      rw [List.disjoint_singleton]
      intro hmem
      have := hlt _ hmem
      omega
    · intro a ha
      rw [List.mem_append, List.mem_singleton] at ha
      rcases ha with ha | ha
      · have := hlt a ha
        omega
      · omega
  · rw [(handleGlobal_other client name version interface h).1]
    refine ⟨hnd, fun a ha => ?_⟩
    have h1 := hlt a ha
    have h2 := handleGlobal_other_next_ptr client name version interface h
    omega

theorem handleName_next_ptr (client : Client) (wl_name : Nat) (name : String) :
    (handleName_body client wl_name name).next_ptr = client.next_ptr := by
  by_cases h : wl_name ∈ wl_names client.outputs_
  · obtain ⟨i, addr, output, hget, _, _⟩ := getOutput_of_mem client wl_name h
    rw [handleName_found client wl_name name i addr output hget]
    cases getOutputConfigs client { output with name := name } with
    | error e => rfl
    | ok configs => by_cases he : configs.isEmpty = true <;> simp [he]
  · rw [(handleName_not_found client wl_name name h).2]

theorem handleName_fresh (client : Client) (wl_name : Nat) (name : String)
    (hfresh : heap_fresh client = true) :
    heap_fresh (handleName_body client wl_name name) = true := by
  rw [heap_fresh_iff] at hfresh ⊢
  rw [handleName_next_ptr]
  rcases handleName_cases client wl_name name with ⟨_, ho, _⟩ | ⟨i, addr, output, hidx, _, ho, _⟩
  · rw [ho]
    exact hfresh
  · rw [ho, addresses_set _ _ _ _ _ hidx]
    exact hfresh

theorem handleGlobalRemove_fresh (client client1 : Client) (name : Nat)
    (h : handleGlobalRemove client name = some client1) (hfresh : heap_fresh client = true) :
    heap_fresh client1 = true := by
  rw [heap_fresh_iff] at hfresh ⊢
  obtain ⟨hnd, hlt⟩ := hfresh
  unfold handleGlobalRemove at h
  cases hb : handleGlobalRemove_bars client.outputs_ name client.bars with
  | none => simp [hb] at h
  | some kc =>
    obtain ⟨kept, calls⟩ := kc
    simp only [hb] at h
    cases hfind : find_if (fun output => output.2.wl_name == name) client.outputs_ with
    | none =>
      simp only [hfind, Option.some.injEq] at h
      subst h
      exact ⟨hnd, hlt⟩
    | some it =>
      obtain ⟨i, addr, output⟩ := it
      simp only [hfind, Option.some.injEq] at h
      subst h
      have hsub : (addresses (client.outputs_.eraseIdx i)).Sublist (addresses client.outputs_) :=
        (List.eraseIdx_sublist _ _).map _
      exact ⟨hnd.sublist hsub, fun a ha => hlt a (hsub.subset ha)⟩

theorem run_fresh (client client1 : Client) (events : List Event)
    (hrun : run client events = some client1) (hfresh : heap_fresh client = true) :
    heap_fresh client1 = true := by
  induction events generalizing client with
  | nil =>
    simp only [run, Option.some.injEq] at hrun
    subst hrun
    exact hfresh
  | cons e rest ih =>
    simp only [run] at hrun
    cases hd : dispatch client e with
    | none => simp [hd] at hrun
    | some client2 =>
      simp only [hd] at hrun
      refine ih client2 hrun ?_
      cases e with
      | global name interface version =>
        simp only [dispatch, Option.some.injEq] at hd
        subst hd
        exact handleGlobal_fresh client name version interface hfresh
      | global_remove name => exact handleGlobalRemove_fresh client client2 name hd hfresh
      | name wl_name name =>
        simp only [dispatch, Option.some.injEq] at hd
        subst hd
        exact handleName_fresh client wl_name name hfresh

/-- C6: every sequence of `global`, `name` and `global_remove` events
dispatched from the initial client runs to a state; in that state the outputs
live at pairwise distinct addresses and every bar points to an output that is in
`outputs_`, the only one at that address, so the registry name the bar is bound
to is among the registry names of the outputs present. -/
theorem bars_bound_to_present_outputs (config : Value) (events : List Event) :
    ∃ client, run (init config) events = some client ∧
      (addresses client.outputs_).Nodup ∧
      ∀ bar ∈ client.bars, ∃ output,
        deref client.outputs_ bar.output = some output ∧
        (bar.output, output) ∈ client.outputs_ ∧
        (∀ output1, (bar.output, output1) ∈ client.outputs_ → output1 = output) ∧
        output.wl_name ∈ wl_names client.outputs_ := by
  obtain ⟨client, hrun, hlive⟩ := run_live (init config) events rfl
  have hfresh := run_fresh (init config) client events hrun rfl
  rw [heap_fresh_iff] at hfresh
  refine ⟨client, hrun, hfresh.1, ?_⟩
  rw [bars_live_iff] at hlive
  intro bar hbar
  have hs := hlive bar hbar
  cases hd : deref client.outputs_ bar.output with
  | none => simp [hd] at hs
  | some output =>
    have hmem := mem_of_deref _ _ _ hd
    refine ⟨output, rfl, hmem, ?_, ?_⟩
    · intro output1 hmem1
      have hinj := List.inj_on_of_nodup_map hfresh.1 hmem1 hmem rfl
      exact (Prod.mk.inj hinj).2
    · simp only [wl_names, List.mem_map]
      exact ⟨(bar.output, output), hmem, rfl⟩

/-! ## Late, repeated and duplicate notifications -/

theorem handleGlobalRemove_wl_names (client client1 : Client) (name : Nat)
    (h : handleGlobalRemove client name = some client1) :
    wl_names client1.outputs_ = (wl_names client.outputs_).erase name := by
  unfold handleGlobalRemove at h
  cases hb : handleGlobalRemove_bars client.outputs_ name client.bars with
  | none => simp [hb] at h
  | some kc =>
    obtain ⟨kept, calls⟩ := kc
    simp only [hb] at h
    cases hfind : find_if (fun output => output.2.wl_name == name) client.outputs_ with
    | none =>
      simp only [hfind, Option.some.injEq] at h
      subst h
      exact (wl_names_erase_of_find_if_none _ _ hfind).symm
    | some it =>
      obtain ⟨i, addr, output⟩ := it
      simp only [hfind, Option.some.injEq] at h
      subst h
      exact wl_names_eraseIdx_find_if _ _ _ _ hfind

theorem handleName_is_name_event (client client1 : Client) (data : Nat) (name : String)
    (h : handleName client data name = some client1) :
    ∃ wl_name, dispatch client (Event.name wl_name name) = some client1 := by
  unfold handleName at h
  cases hd : deref client.outputs_ data with
  | none => simp [hd] at h
  | some output =>
    simp only [hd] at h
    exact ⟨output.wl_name, h⟩

/-- With live `data` the registry name read is that of an output in the
registry, so `getOutput` does not throw: a defined run of `handleName` never
takes the path of the unknown registry name. -/
theorem getOutput_of_live_data (client : Client) (data : Nat) (output : waybar_output)
    (hd : deref client.outputs_ data = some output) :
    ∃ it, getOutput client output.wl_name = .ok it := by
  have hmem := mem_of_deref _ _ _ hd
  have hin : output.wl_name ∈ wl_names client.outputs_ := by
    simp only [wl_names, List.mem_map]
    exact ⟨(data, output), hmem, rfl⟩
  obtain ⟨i, addr, output1, hget, _, _⟩ := getOutput_of_mem client output.wl_name hin
  exact ⟨_, hget⟩

theorem deref_eraseIdx_self (xs : List (Nat × waybar_output)) (i addr : Nat) (output : waybar_output)
    (hnd : (addresses xs).Nodup) (hidx : xs[i]? = some (addr, output)) :
    deref (xs.eraseIdx i) addr = none := by
  induction xs generalizing i with
  | nil => simp at hidx
  | cons y rest ih =>
    obtain ⟨b, ob⟩ := y
    simp only [addresses, List.map_cons, List.nodup_cons] at hnd
    obtain ⟨hnotin, hnd1⟩ := hnd
    cases i with
    | zero =>
      simp at hidx
      obtain ⟨h1, _⟩ := hidx
      subst h1
      simp only [List.eraseIdx_cons_zero]
      cases hd : deref rest b with
      | none => rfl
      | some o =>
        have hmem := mem_of_deref _ _ _ hd
        exact absurd (List.mem_map.mpr ⟨(b, o), hmem, rfl⟩) hnotin
    | succ j =>
      simp at hidx
      have hne : addr ≠ b := by
        intro hcon
        subst hcon
        exact hnotin (List.mem_map.mpr ⟨(addr, output), List.mem_iff_getElem?.mpr ⟨j, hidx⟩, rfl⟩)
      have hab : (addr == b) = false := by simpa using hne
      simp only [List.eraseIdx_cons_succ, deref, List.lookup, hab]
      exact ih j hnd1 hidx

/-- The callback of a removed output: once `handleGlobalRemove` has erased the
output that `getOutput` finds for the registry name, the pointer registered for
its `name` events dangles and `handleName` is undefined for every name. -/
theorem handleName_after_remove (client : Client) (wl_name i addr : Nat) (output : waybar_output)
    (hlive : bars_live client = true) (hnd : (addresses client.outputs_).Nodup)
    (hget : getOutput client wl_name = .ok (i, (addr, output))) :
    ∃ client1, handleGlobalRemove client wl_name = some client1 ∧
      deref client1.outputs_ addr = none ∧
      ∀ name, handleName client1 addr name = none := by
  rw [bars_live_iff] at hlive
  obtain ⟨calls, hcalls⟩ := handleGlobalRemove_bars_eq client.outputs_ wl_name client.bars hlive
  have hfind : find_if (fun output => output.2.wl_name == wl_name) client.outputs_ =
      some (i, (addr, output)) := by
    unfold getOutput at hget
    cases hf : find_if (fun output => output.2.wl_name == wl_name) client.outputs_ with
    | none => simp [hf] at hget
    | some it =>
      simp only [hf, Except.ok.injEq] at hget
      rw [hget]
  have hidx := (find_if_some _ _ _ _ hfind).1
  have hnone := deref_eraseIdx_self client.outputs_ i addr output hnd hidx
  refine ⟨{ client with
            bars := client.bars.filter (fun bar => !bound_to client.outputs_ wl_name bar)
            outputs_ := client.outputs_.eraseIdx i
            trace := (client.trace ++ calls) ++
              [Effect.zxdg_output_v1_destroy output.xdg_output, Effect.wl_output_destroy output.output] },
          ?_, hnone, ?_⟩
  · simp [handleGlobalRemove, hcalls, hfind]
  · intro name
    simp only [handleName]
    rw [hnone]

/-- What the rest of `handleName` would do for a registry name that no output
has any more: `getOutput` throws, the message goes to the error stream and
nothing else changes. -/
theorem handleName_body_after_remove (client client1 : Client) (wl_name : Nat) (name : String)
    (hone : (wl_names client.outputs_).count wl_name ≤ 1)
    (hremove : handleGlobalRemove client wl_name = some client1) :
    getOutput client1 wl_name = .error (Exception.runtime_error "Unable to find valid output") ∧
    handleName_body client1 wl_name name =
      { client1 with trace := client1.trace ++ [Effect.cerr "Unable to find valid output"] } := by
  have habs1 : wl_name ∉ wl_names client1.outputs_ := by
    rw [handleGlobalRemove_wl_names client client1 wl_name hremove]
    intro hcon
    have hpos : 0 < ((wl_names client.outputs_).erase wl_name).count wl_name :=
      List.count_pos_iff.mpr hcon
    rw [List.count_erase_self] at hpos
    omega
  exact handleName_not_found client1 wl_name name habs1

/-- C8, amended: `handleGlobal` for the interface `wl_output` never rejects
the notification: it appends a new output with the advertised registry name and
an empty name to the registry and leaves the bars alone, whether or not the
registry name is already present; the registry names are pairwise distinct
afterwards exactly when they were before and the advertised name was absent. -/
theorem handleGlobal_appends_output (client : Client) (name version : Nat) :
    (handleGlobal client name wl_output_interface.name version).outputs_ =
      client.outputs_ ++
        [(client.next_ptr + 1,
          { output := client.next_ptr, name := "", wl_name := name, xdg_output := some (client.next_ptr + 2) })] ∧
    (handleGlobal client name wl_output_interface.name version).bars = client.bars ∧
    wl_names (handleGlobal client name wl_output_interface.name version).outputs_ = wl_names client.outputs_ ++ [name] ∧
    ((wl_names (handleGlobal client name wl_output_interface.name version).outputs_).Nodup ↔
      (wl_names client.outputs_).Nodup ∧ name ∉ wl_names client.outputs_) := by
  rw [handleGlobal_wl_output]
  refine ⟨rfl, rfl, by simp [wl_names], ?_⟩
  simp only [wl_names, List.map_append, List.map_cons, List.map_nil]
  rw [List.nodup_append]
  simp [List.disjoint_singleton]


theorem set_eq_self_iff (xs : List (Nat × waybar_output)) (i addr : Nat) (output : waybar_output)
    (name : String) (hidx : xs[i]? = some (addr, output)) :
    xs.set i (addr, { output with name := name }) = xs ↔ output.name = name := by
  have hlt : i < xs.length := by
    by_contra hcon
    rw [List.getElem?_eq_none (by omega)] at hidx
    cases hidx
  constructor
  · intro h
    have h1 : (xs.set i (addr, { output with name := name }))[i]? = some (addr, { output with name := name }) := by
      simp [List.getElem?_set, hlt]
    rw [h, hidx] at h1
    simp only [Option.some.injEq, Prod.mk.injEq, true_and] at h1
    rw [h1]
  · intro h
    subst h
    apply List.ext_getElem?
    intro j
    by_cases hj : i = j
    · subst hj
      simp [List.getElem?_set, hlt, hidx]
    · simp [List.getElem?_set, hj]

/-- C10, amended: `handleName` does not look at whether the output already has
a name.  For an output in the registry, having read its registry name, it
stores the name it is given in the first output with that registry name,
destroys the two proxies when no entry matches the name and otherwise appends
one bar per entry that `getOutputConfigs` returns for it, in order, building one
window each: the registry is left as it was exactly when the output already had
this very name, and the bar list exactly when no entry matches it.  Every
callback whose `data` points to a live output with that registry name runs to
this state. -/
theorem handleName_resolves_again (client : Client) (wl_name : Nat) (name : String)
    (h : wl_name ∈ wl_names client.outputs_) :
    ∃ i addr output,
      getOutput client wl_name = .ok (i, (addr, output)) ∧
      handleName_body client wl_name name =
        (match getOutputConfigs client { output with name := name } with
         | .error e =>
           { client with
             outputs_ := client.outputs_.set i (addr, { output with name := name })
             trace := client.trace ++ [Effect.cerr e.what] }
         | .ok configs =>
           if configs.isEmpty then
             { client with
               outputs_ := client.outputs_.set i (addr, { output with name := name })
               trace := client.trace ++
                 [Effect.wl_output_destroy output.output, Effect.zxdg_output_v1_destroy output.xdg_output] }
           else
             { client with
               outputs_ := client.outputs_.set i (addr, { output with name := name })
               bars := client.bars ++ configs.map (fun config => { output := addr, config := config })
               trace := client.trace ++ configs.flatMap (fun config =>
                 [Effect.make_unique_Bar addr config,
                  Effect.add_provider_for_screen { output := addr, config := config }]) }) ∧
      (handleName_body client wl_name name).outputs_ =
        client.outputs_.set i (addr, { output with name := name }) ∧
      ((handleName_body client wl_name name).outputs_ = client.outputs_ ↔ output.name = name) ∧
      (handleName_body client wl_name name).bars =
        client.bars ++ (getOutputConfigs_result client { output with name := name }).map
          (fun config => { output := addr, config := config }) ∧
      ((handleName_body client wl_name name).bars = client.bars ↔
        getOutputConfigs_result client { output with name := name } = []) ∧
      windows_created (handleName_body client wl_name name).trace =
        windows_created client.trace +
          (getOutputConfigs_result client { output with name := name }).length ∧
      (∀ data output0, deref client.outputs_ data = some output0 → output0.wl_name = wl_name →
        handleName client data name = some (handleName_body client wl_name name)) := by
  obtain ⟨i, addr, output, hget, hidx, _⟩ := getOutput_of_mem client wl_name h
  have hfound := handleName_found client wl_name name i addr output hget
  have hout : (handleName_body client wl_name name).outputs_ =
      client.outputs_.set i (addr, { output with name := name }) := by
    rw [hfound]
    cases getOutputConfigs client { output with name := name } with
    | error e => rfl
    | ok configs => by_cases he : configs.isEmpty = true <;> simp [he]
  have hbars : (handleName_body client wl_name name).bars =
      client.bars ++ (getOutputConfigs_result client { output with name := name }).map
        (fun config => { output := addr, config := config }) := by
    rw [hfound]
    simp only [getOutputConfigs_result]
    cases getOutputConfigs client { output with name := name } with
    | error e => simp
    | ok configs =>
      by_cases he : configs.isEmpty = true
      · have hnil : configs = [] := by simpa using he
        subst hnil
        simp
      · simp [he]
  have hwin : windows_created (handleName_body client wl_name name).trace =
      windows_created client.trace +
        (getOutputConfigs_result client { output with name := name }).length := by
    rw [hfound]
    simp only [getOutputConfigs_result]
    cases getOutputConfigs client { output with name := name } with
    | error e => simp [windows_created_append, windows_created]
    | ok configs =>
      by_cases he : configs.isEmpty = true
      · have hnil : configs = [] := by simpa using he
        subst hnil
        simp [windows_created_append, windows_created]
      · simp [he, windows_created_append, windows_created_bars]
  refine ⟨i, addr, output, hget, hfound, hout, ?_, hbars, ?_, hwin,
    fun data output0 hd hn => handleName_live_data client data name output0 wl_name hd hn⟩
  · rw [hout]
    exact set_eq_self_iff _ _ _ _ _ hidx
  · rw [hbars]
    simp

/-! ## Scenarios -/

/-- Scenario B: with `[{output:"DP-1"}, {output:["DP-1","HDMI-1"]}]` the output 7
resolving to "DP-1" gets two bars, in the listed order. -/
theorem handleName_appends_bars_witness :
    7 ∈ wl_names (client_one_output config_B).outputs_ ∧
    handleName (client_one_output config_B) 4 "DP-1" =
      some (handleName_body (client_one_output config_B) 7 "DP-1") ∧
    (handleName_body (client_one_output config_B) 7 "DP-1").bars =
      [{ output := 4, config := Value.objectValue [("output", Value.stringValue "DP-1")] },
       { output := 4, config := Value.objectValue
          [("output", Value.arrayValue [Value.stringValue "DP-1", Value.stringValue "HDMI-1"])] }] ∧
    ∃ i addr output,
      getOutput (client_one_output config_B) 7 = .ok (i, (addr, output)) ∧
      output.wl_name = 7 ∧
      (handleName_body (client_one_output config_B) 7 "DP-1").outputs_[i]? =
        some (addr, { output with name := "DP-1" }) ∧
      (handleName_body (client_one_output config_B) 7 "DP-1").bars =
        (client_one_output config_B).bars ++
          (getOutputConfigs_result (client_one_output config_B) { output with name := "DP-1" }).map
            (fun config => { output := addr, config := config }) ∧
      windows_created (handleName_body (client_one_output config_B) 7 "DP-1").trace =
        windows_created (client_one_output config_B).trace +
          (getOutputConfigs_result (client_one_output config_B) { output with name := "DP-1" }).length ∧
      (getOutputConfigs_result (client_one_output config_B) { output with name := "DP-1" } = [] →
        (handleName_body (client_one_output config_B) 7 "DP-1").bars = (client_one_output config_B).bars ∧
        windows_created (handleName_body (client_one_output config_B) 7 "DP-1").trace =
          windows_created (client_one_output config_B).trace) ∧
      ((addresses (client_one_output config_B).outputs_).Nodup → ∀ config : Value,
        bound_to (handleName_body (client_one_output config_B) 7 "DP-1").outputs_ 7
          { output := addr, config := config } = true) ∧
      (∀ data output0, deref (client_one_output config_B).outputs_ data = some output0 →
        output0.wl_name = 7 →
        handleName (client_one_output config_B) data "DP-1" =
          some (handleName_body (client_one_output config_B) 7 "DP-1")) :=
  ⟨by decide, rfl, rfl, handleName_appends_bars (client_one_output config_B) 7 "DP-1" (by decide)⟩

/-- Scenario E: two outputs with one bar each under the configuration `{}`;
removing the output 7 closes its bar only and the bar of the output 8 stays. -/
theorem handleGlobalRemove_frame_witness :
    bars_live (client_two_outputs config_A) = true ∧
    wl_names (client_two_outputs config_A).outputs_ = [7, 8] ∧
    (client_two_outputs config_A).bars =
      [{ output := 4, config := config_A }, { output := 7, config := config_A }] ∧
    (handleGlobalRemove (client_two_outputs config_A) 7).map (fun client1 => client1.bars) =
      some [{ output := 7, config := config_A }] ∧
    ∃ client1, handleGlobalRemove (client_two_outputs config_A) 7 = some client1 ∧
      client1.bars = (client_two_outputs config_A).bars.filter
        (fun bar => !bound_to (client_two_outputs config_A).outputs_ 7 bar) ∧
      client1.outputs_.filter (fun output => output.2.wl_name != 7) =
        (client_two_outputs config_A).outputs_.filter (fun output => output.2.wl_name != 7) ∧
      wl_names client1.outputs_ = (wl_names (client_two_outputs config_A).outputs_).erase 7 ∧
      (∀ bar ∈ client1.bars,
        deref client1.outputs_ bar.output = deref (client_two_outputs config_A).outputs_ bar.output) :=
  ⟨rfl, rfl, rfl, rfl, handleGlobalRemove_frame (client_two_outputs config_A) 7 rfl⟩

/-- C8, as stated, fails: with an output of registry name 7 in the registry, the
notification for `wl_output` with the same name is handled like any other and
the registry holds the name twice afterwards. -/
theorem handleGlobal_duplicate_id :
    wl_names (client_one_output config_A).outputs_ = [7] ∧
    wl_names (handleGlobal (client_one_output config_A) 7 wl_output_interface.name 3).outputs_ = [7, 7] ∧
    ¬ (wl_names (handleGlobal (client_one_output config_A) 7 wl_output_interface.name 3).outputs_).Nodup ∧
    (handleGlobal (client_one_output config_A) 7 wl_output_interface.name 3).outputs_ ≠
      (client_one_output config_A).outputs_ := by
  refine ⟨rfl, rfl, by decide, ?_⟩
  intro h
  have hlen := congrArg List.length h
  revert hlen
  decide

/-- C9: the code at the failing input.  With the configuration
`{output:"HDMI-1"}` the name "DP-1" matches no entry and `handleName` destroys
both proxies of the output, which stays in the registry; `handleGlobalRemove`
then destroys both proxies a second time. -/
theorem handleGlobalRemove_destroys_again :
    run (init config_C) (bootstrap ++ [Event.global 7 wl_output_interface.name 3, Event.name 7 "DP-1"]) =
      some (client_resolved config_C) ∧
    handleName (client_one_output config_C) 4 "DP-1" = some (client_resolved config_C) ∧
    (client_resolved config_C).outputs_ =
      [(4, { output := 3, name := "DP-1", wl_name := 7, xdg_output := some 5 })] ∧
    (client_resolved config_C).bars = [] ∧
    wl_output_destroy_count (client_resolved config_C).trace 3 = 1 ∧
    zxdg_output_v1_destroy_count (client_resolved config_C).trace (some 5) = 1 ∧
    ∃ client1, handleGlobalRemove (client_resolved config_C) 7 = some client1 ∧
      client1.outputs_ = [] ∧
      wl_output_destroy_count client1.trace 3 = 2 ∧
      zxdg_output_v1_destroy_count client1.trace (some 5) = 2 :=
  ⟨rfl, rfl, rfl, rfl, rfl, rfl, _, rfl, rfl, rfl, rfl⟩

/-- A second name for the output 7, which already resolved to "DP-1". -/
theorem handleName_resolves_again_witness :
    7 ∈ wl_names (client_resolved config_A).outputs_ ∧
    ∃ i addr output,
      getOutput (client_resolved config_A) 7 = .ok (i, (addr, output)) ∧
      handleName_body (client_resolved config_A) 7 "DP-2" =
        (match getOutputConfigs (client_resolved config_A) { output with name := "DP-2" } with
         | .error e =>
           { client_resolved config_A with
             outputs_ := (client_resolved config_A).outputs_.set i (addr, { output with name := "DP-2" })
             trace := (client_resolved config_A).trace ++ [Effect.cerr e.what] }
         | .ok configs =>
           if configs.isEmpty then
             { client_resolved config_A with
               outputs_ := (client_resolved config_A).outputs_.set i (addr, { output with name := "DP-2" })
               trace := (client_resolved config_A).trace ++
                 [Effect.wl_output_destroy output.output, Effect.zxdg_output_v1_destroy output.xdg_output] }
           else
             { client_resolved config_A with
               outputs_ := (client_resolved config_A).outputs_.set i (addr, { output with name := "DP-2" })
               bars := (client_resolved config_A).bars ++
                 configs.map (fun config => { output := addr, config := config })
               trace := (client_resolved config_A).trace ++ configs.flatMap (fun config =>
                 [Effect.make_unique_Bar addr config,
                  Effect.add_provider_for_screen { output := addr, config := config }]) }) ∧
      (handleName_body (client_resolved config_A) 7 "DP-2").outputs_ =
        (client_resolved config_A).outputs_.set i (addr, { output with name := "DP-2" }) ∧
      ((handleName_body (client_resolved config_A) 7 "DP-2").outputs_ = (client_resolved config_A).outputs_ ↔
        output.name = "DP-2") ∧
      (handleName_body (client_resolved config_A) 7 "DP-2").bars =
        (client_resolved config_A).bars ++
          (getOutputConfigs_result (client_resolved config_A) { output with name := "DP-2" }).map
            (fun config => { output := addr, config := config }) ∧
      ((handleName_body (client_resolved config_A) 7 "DP-2").bars = (client_resolved config_A).bars ↔
        getOutputConfigs_result (client_resolved config_A) { output with name := "DP-2" } = []) ∧
      windows_created (handleName_body (client_resolved config_A) 7 "DP-2").trace =
        windows_created (client_resolved config_A).trace +
          (getOutputConfigs_result (client_resolved config_A) { output with name := "DP-2" }).length ∧
      (∀ data output0, deref (client_resolved config_A).outputs_ data = some output0 →
        output0.wl_name = 7 →
        handleName (client_resolved config_A) data "DP-2" =
          some (handleName_body (client_resolved config_A) 7 "DP-2")) :=
  ⟨by decide, handleName_resolves_again (client_resolved config_A) 7 "DP-2" (by decide)⟩

/-- C10, as stated, fails: after the output with registry name 7 resolved its
name to "DP-1" and got its bar, a second `name` callback for it, with its live
`data`, stores the name "DP-2" and builds a second bar. -/
theorem handleName_second_callback :
    handleName (client_one_output config_A) 4 "DP-1" = some (client_resolved config_A) ∧
    (client_resolved config_A).outputs_ =
      [(4, { output := 3, name := "DP-1", wl_name := 7, xdg_output := some 5 })] ∧
    (client_resolved config_A).bars = [{ output := 4, config := config_A }] ∧
    ∃ client1, handleName (client_resolved config_A) 4 "DP-2" = some client1 ∧
      client1.outputs_ = [(4, { output := 3, name := "DP-2", wl_name := 7, xdg_output := some 5 })] ∧
      client1.bars = [{ output := 4, config := config_A }, { output := 4, config := config_A }] ∧
      windows_created client1.trace = windows_created (client_resolved config_A).trace + 1 ∧
      client1 ≠ client_resolved config_A := by
  refine ⟨rfl, rfl, rfl, _, rfl, rfl, rfl, rfl, ?_⟩
  intro h
  have hlen := congrArg (fun client => client.bars.length) h
  revert hlen
  decide

end Client

end waybar
